import Mathlib

/-!
A verification development for the CKEditor 5 find-and-replace match index
(`src/packages/ckeditor5-find-and-replace/src/utils.js`) and the abstract view
`Observer` lifecycle (`src/engine/view/observer/observer.ts`).

Positions in the document are modelled as natural numbers ordered by document
order; `Position#isBefore` is `<` on naturals.
-/

namespace CKE

/-- A marker holds a live range; for ordering purposes only its start and end
positions (in document order) matter.  `getStart()` is the `start` field. -/
structure Marker where
  start : Nat
  stop : Nat
  deriving Repr, DecidableEq

/-- A find result record, as built inside `updateFindResultFromRange`:
`{ id: resultId, label: foundItem.label, marker }`. -/
structure ResultRecord where
  id : String
  label : String
  marker : Marker
  deriving Repr, DecidableEq

/-- Embedding of `findInsertIndex( resultsList, markerToInsert )`:
`resultsList.find(({marker}) => markerToInsert.getStart().isBefore(marker.getStart()))`
followed by `result ? resultsList.getIndex(result) : resultsList.length`.
`List.findIdx` returns the index of the first element satisfying the predicate
and the length when none does, which is exactly that composition. -/
def findInsertIndex (resultsList : List ResultRecord) (markerToInsert : Marker) : Nat :=
  resultsList.findIdx (fun r => decide (markerToInsert.start < r.marker.start))

/-- An item yielded while walking a view/model range: a text node, a text proxy
(a fragment of a text node), or a non-text inline element such as `<softBreak>`. -/
inductive ViewItem where
  | text (data : String)
  | textProxy (data : String)
  | element (name : String)
  deriving Repr, DecidableEq

/-- Embedding of `rangeToText( range )`: a `reduce` over the range's items that
appends `node.data` for text / text-proxy nodes and a single `"\n"` for any
other (inline element) node. -/
def rangeToText (range : List ViewItem) : String :=
  range.foldl
    (fun rangeText node =>
      match node with
      | .text data => rangeText ++ data
      | .textProxy data => rangeText ++ data
      | .element _ => rangeText ++ "\n")
    ""

/-- The number of atomic positions spanned by a range: each character of a text
item is one position, each inline element is one position (its offset size). -/
def offsetSize : ViewItem → Nat
  | .text data => data.length
  | .textProxy data => data.length
  | .element _ => 1

/-- Total atomic length of a range (sum of the items' offset sizes). -/
def rangeLength (range : List ViewItem) : Nat :=
  (range.map offsetSize).sum

/-- The match-index ordering invariant: records sorted (non-strictly) by the
start position of their markers. -/
def sortedByStart (l : List ResultRecord) : Prop :=
  l.Pairwise (fun a b => a.marker.start ≤ b.marker.start)

/-- A model element scanned by `updateFindResultFromRange`.  `pos` is the
document position of the element's interior start, so that
`writer.createPositionAt( item, off )` is the document position `pos + off`;
`content` is what `model.createRangeIn( item )` walks over. -/
structure Element where
  name : String
  pos : Nat
  content : List ViewItem
  deriving Repr, DecidableEq

/-- One value yielded by iterating `[ ...range ]` over a tree-walker range:
a `{ type, item }` pair, with `type` one of `"elementStart"`, `"elementEnd"`,
`"text"`, ... -/
structure WalkerValue where
  type : String
  item : Element
  deriving Repr, DecidableEq

/-- The model facade used by the scanner: only `model.schema.checkChild( item,
'$text' )` matters, modelled as a predicate on elements. -/
structure DocModel where
  checkChildText : Element → Bool

/-- `writer.createPositionAt( item, offset )` as a document position. -/
def createPositionAt (item : Element) (offset : Nat) : Nat :=
  item.pos + offset

/-- `model.createRangeIn( item )`: the range over the element's content. -/
def createRangeIn (item : Element) : List ViewItem :=
  item.content

/-- A hit returned by the caller-supplied `findCallback`: `{ start, end,
label }` offsets into the flattened text of the element. -/
structure FoundItem where
  start : Nat
  stop : Nat
  label : String
  deriving Repr, DecidableEq

/-- Outcome of one invocation of the caller-supplied `findCallback`: it can
raise (`thrown`), return a falsy value such as `undefined` (`falsy`), or
return a collection of hits (`found`; the collection may be empty). -/
inductive FindCallbackResult where
  | thrown
  | falsy
  | found (items : List FoundItem)
  deriving Repr, DecidableEq

/-- The `foundItems.forEach` loop body: for each hit, one `model.change`
transaction creates the marker `findResult:<uid>` over
`[createPositionAt item start, createPositionAt item stop)` and inserts the
record at `findInsertIndex results marker`.  The state is the results list
together with the next value of the ambient uid generator. -/
def addFoundItems (item : Element) (foundItems : List FoundItem)
    (st : List ResultRecord × Nat) : List ResultRecord × Nat :=
  foundItems.foldl
    (fun st foundItem =>
      let resultId := "findResult:" ++ toString st.2
      let marker : Marker :=
        ⟨createPositionAt item foundItem.start, createPositionAt item foundItem.stop⟩
      let index := findInsertIndex st.1 marker
      (st.1.insertIdx index ⟨resultId, foundItem.label, marker⟩, st.2 + 1))
    st

/-- Outcome of a scan: the final results list, the next uid, and whether the
scan terminated by an exception from `findCallback` propagating out (the JS
source has no try/catch, so a throwing callback aborts the whole `forEach`). -/
structure ScanOutcome where
  results : List ResultRecord
  nextUid : Nat
  threw : Bool
  deriving Repr, DecidableEq

/-- Embedding of the `forEach` loop of `updateFindResultFromRange`, processing
the remaining walker values.  A step is acted on only when its type is
`"elementStart"` and `model.schema.checkChild( item, '$text' )` holds; then
`findCallback({ item, text })` is invoked, a falsy return skips the element
(`if ( !foundItems ) return`), a collection of hits is inserted one by one,
and an exception aborts the whole scan with the results inserted so far. -/
def updateFindResultFromRangeGo (model : DocModel)
    (findCallback : Element → String → FindCallbackResult) :
    List WalkerValue → List ResultRecord → Nat → ScanOutcome
  | [], results, uid => ⟨results, uid, false⟩
  | step :: rest, results, uid =>
    if step.type = "elementStart" then
      if model.checkChildText step.item then
        match findCallback step.item (rangeToText (createRangeIn step.item)) with
        | .thrown => ⟨results, uid, true⟩
        | .falsy => updateFindResultFromRangeGo model findCallback rest results uid
        | .found foundItems =>
          let st := addFoundItems step.item foundItems (results, uid)
          updateFindResultFromRangeGo model findCallback rest st.1 st.2
      else updateFindResultFromRangeGo model findCallback rest results uid
    else updateFindResultFromRangeGo model findCallback rest results uid

/-- Embedding of `updateFindResultFromRange( range, model, findCallback,
results )`; the ambient uid generator starts at 0. -/
def updateFindResultFromRange (range : List WalkerValue) (model : DocModel)
    (findCallback : Element → String → FindCallbackResult)
    (results : List ResultRecord) : ScanOutcome :=
  updateFindResultFromRangeGo model findCallback range results 0

/-! ### The abstract view `Observer` (engine/view/observer/observer.ts) -/

/-- The mutable state of an `Observer`: the `isEnabled` flag and the event
listeners currently attached through the `DomEmitterMixin` capability.
Modelled from the spec: the listener bookkeeping lives in the event-emission
mixin, which is outside the given sources; per the spec, `destroy()`
"permanently detaches all event listeners this Observer registered on any
emitter", and an observer emits structured events only through attached
listeners and only while enabled.  Listeners are identified abstractly by
strings.  The `view`/`document` references do not influence any claim and are
omitted from the state. -/
structure ObserverState where
  isEnabled : Bool
  listeners : List String
  deriving Repr, DecidableEq

namespace ObserverState

/-- The constructor: `this.isEnabled = false`; no listeners are attached yet
(attachment happens later, in a concrete subclass's `observe()`). -/
def construct : ObserverState :=
  ⟨false, []⟩

/-- `enable()`: `this.isEnabled = true`. -/
def enable (s : ObserverState) : ObserverState :=
  { s with isEnabled := true }

/-- `disable()`: `this.isEnabled = false`. -/
def disable (s : ObserverState) : ObserverState :=
  { s with isEnabled := false }

/-- `destroy()`: `this.disable();` then `this.stopListening();`.
Modelled from the spec: `stopListening()` (from the event-emission mixin, not
among the given sources) detaches every listener the observer registered. -/
def destroy (s : ObserverState) : ObserverState :=
  { s.disable with listeners := [] }

/-- Modelled from the spec: an observer can emit an event through a listener
only if that listener is still attached and the observer is enabled ("an
Observer never emits structured events while `enabled == false`"; a released
listener no longer fires). -/
def canEmitVia (s : ObserverState) (l : String) : Bool :=
  s.listeners.contains l && s.isEnabled

end ObserverState

/-- A lifecycle operation on an observer (the operations implemented by the
abstract base class itself). -/
inductive ObserverOp where
  | enable
  | disable
  | destroy
  deriving Repr, DecidableEq

/-- Apply one lifecycle operation. -/
def applyOp (s : ObserverState) : ObserverOp → ObserverState
  | .enable => s.enable
  | .disable => s.disable
  | .destroy => s.destroy

/-- Apply a sequence of lifecycle operations, left to right. -/
def applyOps (s : ObserverState) (ops : List ObserverOp) : ObserverState :=
  ops.foldl applyOp s

/-! ### `checkShouldIgnoreEventFromTarget` and the DOM -/

/-- A DOM node as seen by `checkShouldIgnoreEventFromTarget`: an element
(which may carry the `data-cke-ignore-events` attribute) with an optional
parent, a text node with an optional parent, or a document node.  A node with
no parent is detached. -/
inductive DomNode where
  | element (hasIgnoreAttr : Bool) (parentNode : Option DomNode)
  | text (parentNode : Option DomNode)
  | document

namespace DomNode

/-- `node.nodeType`: 1 for elements, 3 for text nodes, 9 for documents. -/
def nodeType : DomNode → Nat
  | .element _ _ => 1
  | .text _ => 3
  | .document => 9

/-- `node.parentNode` (null for a detached node and for a document). -/
def parentNode : DomNode → Option DomNode
  | .element _ p => p
  | .text p => p
  | .document => none

/-- Whether this node itself carries `data-cke-ignore-events` (only elements
can carry attributes). -/
def hasIgnoreAttrSelf : DomNode → Bool
  | .element ig _ => ig
  | _ => false

/-- Whether the node or one of its ancestors carries the
`data-cke-ignore-events` attribute.  For an element `e` this is exactly
`e.matches( '[data-cke-ignore-events], [data-cke-ignore-events] *' )`: the
first selector matches `e` when it carries the attribute itself, the second
when some ancestor element carries it. -/
def selfOrAncestorHasIgnoreAttr : DomNode → Bool
  | .element ig none => ig
  | .element ig (some p) => ig || selfOrAncestorHasIgnoreAttr p
  | .text none => false
  | .text (some p) => selfOrAncestorHasIgnoreAttr p
  | .document => false

end DomNode

/-- Embedding of `checkShouldIgnoreEventFromTarget( domTarget )`.  A null or
undefined target is `none`.  The body: a non-null target of `nodeType === 3`
is replaced by its `parentNode`; then a null or non-element target yields
`false`; otherwise the result of the `matches()` call on the ignore-events
selector pair. -/
def checkShouldIgnoreEventFromTarget (domTarget : Option DomNode) : Bool :=
  let domTarget :=
    match domTarget with
    | some t => if t.nodeType = 3 then t.parentNode else some t
    | none => none
  match domTarget with
  | none => false
  | some t =>
    if t.nodeType ≠ 1 then false
    else t.selfOrAncestorHasIgnoreAttr

/-- The default ignore policy in the spec's words: resolve a text-bearing node
to its parent element first; if the resolved target is not an element (no
element found there, e.g. a detached node) return "not ignored"; otherwise
ignore iff the originating element or any ancestor carries the explicit
ignore-events marker attribute. -/
def specIgnorePolicy (target : Option DomNode) : Bool :=
  let resolved :=
    match target with
    | some (.text p) => p
    | t => t
  match resolved with
  | some (.element ig p) => (DomNode.element ig p).selfOrAncestorHasIgnoreAttr
  | _ => false

instance (l : List ResultRecord) : Decidable (sortedByStart l) := by
  unfold sortedByStart
  infer_instance

/-! ### Concrete fixtures used by witnesses and counterexamples -/

/-- Records with marker starts `[2, 5, 9]`, as in the spec's `findInsertIndex`
test vector. -/
def exampleRecords : List ResultRecord :=
  [⟨"r2", "a", ⟨2, 3⟩⟩, ⟨"r5", "b", ⟨5, 6⟩⟩, ⟨"r9", "c", ⟨9, 10⟩⟩]

/-- A text-bearing element at document position 0 containing "xy". -/
def elemA : Element :=
  ⟨"paragraphA", 0, [ViewItem.text "xy"]⟩

/-- A text-bearing element at document position 10 containing "zw". -/
def elemB : Element :=
  ⟨"paragraphB", 10, [ViewItem.text "zw"]⟩

/-- A schema under which every element may contain `$text`. -/
def permissiveModel : DocModel :=
  ⟨fun _ => true⟩

/-- A matcher that raises on `elemA` (position 0) and returns one hit
(`zw`, offsets 0..2) on any other element. -/
def throwOnACallback : Element → String → FindCallbackResult :=
  fun item _ => if item.pos = 0 then .thrown else .found [⟨0, 2, "zw"⟩]

/-- A matcher that returns a falsy value on `elemA` (position 0) and one hit
on any other element. -/
def falsyOnACallback : Element → String → FindCallbackResult :=
  fun item _ => if item.pos = 0 then .falsy else .found [⟨0, 2, "zw"⟩]

/-- The walker values of a range containing `elemA` then `elemB`. -/
def rangeAB : List WalkerValue :=
  [⟨"elementStart", elemA⟩, ⟨"elementStart", elemB⟩]

end CKE

namespace CKE

/-! ## C1 -/

/-- C1 is false on the code: for existing records with marker starts
`[2, 5, 9]` and a new marker with start 5, `findInsertIndex` returns 2, not 1
— the tie is inserted after the existing equal-start record, because the
predicate `markerToInsert.getStart().isBefore( marker.getStart() )` is strict. -/
theorem findInsertIndex_tie_counterexample :
    findInsertIndex exampleRecords ⟨5, 7⟩ = 2 ∧ findInsertIndex exampleRecords ⟨5, 7⟩ ≠ 1 := by
  decide

/-- C1 (amended): for every results list sorted by marker start and every new
marker whose start equals the start of the record at index `i`, the insertion
index computed by `findInsertIndex` is strictly greater than `i`: on ties the
new record is inserted after the existing equal-start record, not before it. -/
theorem findInsertIndex_equal_start_inserts_after
    (l : List ResultRecord) (m : Marker) (hs : sortedByStart l)
    (i : Nat) (hi : i < l.length)
    (heq : (l.get ⟨i, hi⟩).marker.start = m.start) :
    i < findInsertIndex l m := by
  by_contra hle
  push_neg at hle
  unfold findInsertIndex at hle
  have hflt : l.findIdx (fun r => decide (m.start < r.marker.start)) < l.length :=
    lt_of_le_of_lt hle hi
  have hp := List.findIdx_getElem (w := hflt)
  simp only [decide_eq_true_eq] at hp
  simp only [List.get_eq_getElem] at heq
  revert hle hp
  generalize List.findIdx (fun r => decide (m.start < r.marker.start)) l = j at hflt
  intro hle hp
  rcases Nat.lt_or_ge j i with hlt | hge
  · have := (List.pairwise_iff_get.mp hs) ⟨j, hflt⟩ ⟨i, hi⟩ hlt
    simp only [List.get_eq_getElem] at this
    omega
  · have hieq : j = i := Nat.le_antisymm hle hge
    subst hieq
    omega

/-- Witness for the amended C1 on the spec's own vector: starts `[2, 5, 9]`,
new start 5, equal-start record at index 1, insertion strictly after it. -/
theorem findInsertIndex_equal_start_inserts_after_witness :
    1 < findInsertIndex exampleRecords ⟨5, 7⟩ :=
  findInsertIndex_equal_start_inserts_after exampleRecords ⟨5, 7⟩ (by decide) 1 (by decide)
    (by decide)

/-! ## C7 -/

/-- C7: a new marker whose start is strictly after every existing record's
start is inserted at the end of the list, and one strictly before every
existing record's start is inserted at index 0. -/
theorem findInsertIndex_extremes (l : List ResultRecord) (m : Marker) :
    ((∀ r ∈ l, r.marker.start < m.start) → findInsertIndex l m = l.length) ∧
    ((∀ r ∈ l, m.start < r.marker.start) → findInsertIndex l m = 0) := by
  constructor
  · intro h
    unfold findInsertIndex
    apply List.findIdx_eq_length_of_false
    intro x hx
    simp only [decide_eq_false_iff_not, not_lt]
    exact le_of_lt (h x hx)
  · intro h
    cases l with
    | nil => rfl
    | cons a t =>
      unfold findInsertIndex
      rw [List.findIdx_cons]
      have : m.start < a.marker.start := h a (List.mem_cons_self a t)
      simp [this]

/-- Witness for C7 on the spec's vector: with starts `[2, 5, 9]`, a new start
10 gets index 3 (the length) and a new start 0 gets index 0. -/
theorem findInsertIndex_extremes_witness :
    findInsertIndex exampleRecords ⟨10, 11⟩ = 3 ∧ findInsertIndex exampleRecords ⟨0, 1⟩ = 0 :=
  ⟨(findInsertIndex_extremes exampleRecords ⟨10, 11⟩).1 (by decide),
   (findInsertIndex_extremes exampleRecords ⟨0, 1⟩).2 (by decide)⟩

/-! ## C4 -/

/-- C4: inserting a new record at the index computed by `findInsertIndex` —
exactly what every insertion inside `updateFindResultFromRange` does —
preserves the sorted-by-marker-start invariant of the results list. -/
theorem insert_at_findInsertIndex_preserves_sorted (l : List ResultRecord)
    (r : ResultRecord) (hs : sortedByStart l) :
    sortedByStart (l.insertIdx (findInsertIndex l r.marker) r) := by
  induction l with
  | nil => simp [sortedByStart, findInsertIndex]
  | cons a t ih =>
    rw [sortedByStart, List.pairwise_cons] at hs
    obtain ⟨ha, ht⟩ := hs
    unfold findInsertIndex
    rw [List.findIdx_cons]
    by_cases hm : r.marker.start < a.marker.start
    · rw [decide_eq_true hm]
      simp only [cond_true, List.insertIdx_zero]
      rw [sortedByStart, List.pairwise_cons]
      refine ⟨?_, List.pairwise_cons.mpr ⟨ha, ht⟩⟩
      intro x hx
      rcases List.mem_cons.mp hx with h | h
      · subst h; exact le_of_lt hm
      · exact le_trans (le_of_lt hm) (ha x h)
    · rw [decide_eq_false hm]
      simp only [cond_false, List.insertIdx_succ_cons]
      rw [sortedByStart, List.pairwise_cons]
      have hidx : findInsertIndex t r.marker ≤ t.length := List.findIdx_le_length _
      refine ⟨?_, ih ht⟩
      intro x hx
      rcases (List.mem_insertIdx hidx).mp hx with h | h
      · subst h; omega
      · exact ha x h

/-- Witness for C4: inserting a start-5 record into the sorted starts
`[2, 5, 9]` at the computed index yields a sorted list. -/
theorem insert_at_findInsertIndex_preserves_sorted_witness :
    sortedByStart
      (exampleRecords.insertIdx (findInsertIndex exampleRecords (Marker.mk 5 7))
        ⟨"w", "w", ⟨5, 7⟩⟩) :=
  insert_at_findInsertIndex_preserves_sorted exampleRecords ⟨"w", "w", ⟨5, 7⟩⟩ (by decide)

/-! ## C6 -/

/-- Auxiliary length computation for the `reduce` inside `rangeToText`: the
accumulated string grows by exactly the offset size of every item folded in. -/
theorem rangeToText_go_length (l : List ViewItem) : ∀ acc : String,
    (l.foldl
      (fun rangeText node =>
        match node with
        | .text data => rangeText ++ data
        | .textProxy data => rangeText ++ data
        | .element _ => rangeText ++ "\n") acc).length
      = acc.length + rangeLength l := by
  induction l with
  | nil => intro acc; simp [rangeLength]
  | cons x t ih =>
    intro acc
    cases x <;>
      simp [List.foldl_cons, ih, rangeLength, offsetSize, String.length_append,
        List.map_cons, List.sum_cons,
        (show ("\n" : String).length = 1 from rfl)] <;>
      omega

/-- C6: `rangeToText` flattens a range in document order with every non-text
inline item contributing exactly one newline, the produced string's length
always equals the number of atomic positions spanned by the range, and on
text "ab" + soft break + text "cd" the result is the 5-character "ab\ncd". -/
theorem rangeToText_flattening :
    (∀ range : List ViewItem, (rangeToText range).length = rangeLength range) ∧
    rangeToText [ViewItem.text "ab", ViewItem.element "softBreak", ViewItem.text "cd"]
      = "ab\ncd" ∧
    (rangeToText [ViewItem.text "ab", ViewItem.element "softBreak", ViewItem.text "cd"]).length
      = 5 ∧
    rangeLength [ViewItem.text "ab", ViewItem.element "softBreak", ViewItem.text "cd"] = 5 := by
  refine ⟨?_, by decide, by decide, by decide⟩
  intro range
  unfold rangeToText
  simpa using rangeToText_go_length range ""

/-! ## C2 and C10: the scanner -/

/-- Splitting a scan: the walker values after a throwing element are never
processed; otherwise scanning continues with the accumulated results and uid. -/
theorem updateFindGo_append (model : DocModel)
    (cb : Element → String → FindCallbackResult) (l1 l2 : List WalkerValue)
    (results : List ResultRecord) (uid : Nat) :
    updateFindResultFromRangeGo model cb (l1 ++ l2) results uid =
      (let o := updateFindResultFromRangeGo model cb l1 results uid
       if o.threw then o
       else updateFindResultFromRangeGo model cb l2 o.results o.nextUid) := by
  induction l1 generalizing results uid with
  | nil => simp [updateFindResultFromRangeGo]
  | cons s t ih =>
    simp only [List.cons_append]
    by_cases h1 : s.type = "elementStart"
    · by_cases h2 : model.checkChildText s.item
      · cases hcb : cb s.item (rangeToText (createRangeIn s.item)) with
        | thrown => simp [updateFindResultFromRangeGo, h1, h2, hcb]
        | falsy => simp [updateFindResultFromRangeGo, h1, h2, hcb, ih]
        | found items => simp [updateFindResultFromRangeGo, h1, h2, hcb, ih]
      · simp [updateFindResultFromRangeGo, h1, h2, ih]
    · simp [updateFindResultFromRangeGo, h1, ih]

/-- C2 is false on the code: scanning `elemA` (whose matcher throws) followed
by `elemB` (whose matcher returns a hit) yields no record at all — the
exception propagates out of the `forEach`, so the scan does not proceed to
the remaining elements, contrary to "aborts for that element only". -/
theorem scan_throw_counterexample :
    (updateFindResultFromRange rangeAB permissiveModel throwOnACallback []).results = [] ∧
    (updateFindResultFromRange rangeAB permissiveModel throwOnACallback []).threw = true := by
  decide

/-- C2 (amended): when the matcher throws on an element, the entire remaining
scan aborts — the throwing element inserts nothing and the elements after it
are never processed — while every record inserted for earlier elements
remains in the results list unchanged (no rollback). -/
theorem scan_throw_aborts_rest (model : DocModel)
    (cb : Element → String → FindCallbackResult)
    (pre post : List WalkerValue) (bad : WalkerValue)
    (results : List ResultRecord) (uid : Nat)
    (hpre : (updateFindResultFromRangeGo model cb pre results uid).threw = false)
    (htype : bad.type = "elementStart")
    (hchild : model.checkChildText bad.item = true)
    (hthrow : cb bad.item (rangeToText (createRangeIn bad.item)) = .thrown) :
    updateFindResultFromRangeGo model cb (pre ++ bad :: post) results uid =
      ⟨(updateFindResultFromRangeGo model cb pre results uid).results,
       (updateFindResultFromRangeGo model cb pre results uid).nextUid, true⟩ := by
  rw [updateFindGo_append]
  simp only [hpre, if_neg Bool.false_ne_true]
  simp [updateFindResultFromRangeGo, htype, hchild, hthrow]

/-- Witness for the amended C2: scanning `elemB` (one hit inserted) and then
the throwing `elemA` ends with exactly the record from `elemB` retained. -/
theorem scan_throw_aborts_rest_witness :
    updateFindResultFromRangeGo permissiveModel throwOnACallback
        ([⟨"elementStart", elemB⟩] ++ ⟨"elementStart", elemA⟩ :: []) [] 0 =
      ⟨(updateFindResultFromRangeGo permissiveModel throwOnACallback
          [⟨"elementStart", elemB⟩] [] 0).results,
       (updateFindResultFromRangeGo permissiveModel throwOnACallback
          [⟨"elementStart", elemB⟩] [] 0).nextUid, true⟩ :=
  scan_throw_aborts_rest permissiveModel throwOnACallback
    [⟨"elementStart", elemB⟩] [] ⟨"elementStart", elemA⟩ [] 0 (by decide) rfl rfl rfl

/-- C10: when the matcher returns a falsy value for a scanned element, no
marker is created and no record inserted for it — the early `return` leaves
the results list and uid untouched — and the scan proceeds with exactly the
remaining walker values. -/
theorem scan_falsy_skips_element (model : DocModel)
    (cb : Element → String → FindCallbackResult)
    (step : WalkerValue) (rest : List WalkerValue)
    (results : List ResultRecord) (uid : Nat)
    (htype : step.type = "elementStart")
    (hchild : model.checkChildText step.item = true)
    (hfalsy : cb step.item (rangeToText (createRangeIn step.item)) = .falsy) :
    updateFindResultFromRangeGo model cb (step :: rest) results uid =
      updateFindResultFromRangeGo model cb rest results uid := by
  simp [updateFindResultFromRangeGo, htype, hchild, hfalsy]

/-- Witness for C10: a falsy matcher on `elemA` leaves the scan identical to
scanning the remaining `elemB` alone. -/
theorem scan_falsy_skips_element_witness :
    updateFindResultFromRangeGo permissiveModel falsyOnACallback
        (⟨"elementStart", elemA⟩ :: [⟨"elementStart", elemB⟩]) [] 0 =
      updateFindResultFromRangeGo permissiveModel falsyOnACallback
        [⟨"elementStart", elemB⟩] [] 0 :=
  scan_falsy_skips_element permissiveModel falsyOnACallback
    ⟨"elementStart", elemA⟩ [⟨"elementStart", elemB⟩] [] 0 rfl rfl rfl

/-! ## C3 and C8: the Observer lifecycle -/

/-- C3 is false as stated: `enable()` after `destroy()` does set `isEnabled`
back to `true` — the code does not forbid re-enabling the flag. -/
theorem destroy_then_enable_counterexample :
    (((ObserverState.mk true ["mousedown"]).destroy).enable).isEnabled = true := by
  rfl

/-- No lifecycle operation ever re-attaches a listener: once the listener list
is empty it stays empty. -/
theorem listeners_stay_empty (ops : List ObserverOp) :
    ∀ s : ObserverState, s.listeners = [] → (applyOps s ops).listeners = [] := by
  induction ops with
  | nil => intro s hs; simpa [applyOps] using hs
  | cons o t ih =>
    intro s hs
    have : (applyOp s o).listeners = [] := by
      cases o <;> simp [applyOp, ObserverState.enable, ObserverState.disable,
        ObserverState.destroy, hs]
    simpa [applyOps, List.foldl_cons] using ih (applyOp s o) this

/-- C3 (amended): immediately after `destroy()` the enabled flag is false, and
in every sequence of lifecycle operations after `destroy()` the released
listeners stay released, so the observer never again emits events through its
previously-released listeners — even though a subsequent `enable()` does set
the enabled flag to true again. -/
theorem destroy_terminal (s : ObserverState) (ops : List ObserverOp) :
    s.destroy.isEnabled = false ∧
    (applyOps s.destroy ops).listeners = [] ∧
    ∀ l : String, (applyOps s.destroy ops).canEmitVia l = false := by
  have hnil : (applyOps s.destroy ops).listeners = [] :=
    listeners_stay_empty ops s.destroy rfl
  refine ⟨rfl, hnil, ?_⟩
  intro l
  simp [ObserverState.canEmitVia, hnil]

/-- Enable/disable touch only the `isEnabled` flag: the listener list is
untouched by any sequence of them. -/
theorem switch_ops_keep_listeners (ops : List ObserverOp)
    (honly : ∀ o ∈ ops, o = ObserverOp.enable ∨ o = ObserverOp.disable) :
    ∀ s : ObserverState, (applyOps s ops).listeners = s.listeners := by
  induction ops with
  | nil => intro s; simp [applyOps]
  | cons a t ih =>
    intro s
    have hstep : (applyOp s a).listeners = s.listeners := by
      rcases honly a (List.mem_cons_self a t) with h | h <;> subst h <;>
        simp [applyOp, ObserverState.enable, ObserverState.disable]
    have htail := ih (fun o ho => honly o (List.mem_cons_of_mem a ho)) (applyOp s a)
    simp only [applyOps, List.foldl_cons] at htail ⊢
    rw [htail, hstep]

/-- C8: `isEnabled` is false immediately after construction; after any finite
nonempty sequence of `enable()`/`disable()` calls the flag equals true exactly
when the last call was `enable()`, and the calls have no side effect on the
observer's state beyond the flag (the listener list is unchanged). -/
theorem enable_disable_last_call_wins (s : ObserverState) (ops : List ObserverOp)
    (hne : ops ≠ [])
    (honly : ∀ o ∈ ops, o = ObserverOp.enable ∨ o = ObserverOp.disable) :
    ((applyOps s ops).isEnabled = true ↔ ops.getLast? = some ObserverOp.enable) ∧
    (applyOps s ops).listeners = s.listeners ∧
    ObserverState.construct.isEnabled = false := by
  refine ⟨?_, switch_ops_keep_listeners ops honly s, rfl⟩
  induction ops generalizing s with
  | nil => exact absurd rfl hne
  | cons a t ih =>
    cases t with
    | nil =>
      rcases honly a (List.mem_cons_self a []) with h | h <;> subst h <;>
        simp [applyOps, applyOp, ObserverState.enable, ObserverState.disable]
    | cons b t' =>
      have hstep : applyOps s (a :: b :: t') = applyOps (applyOp s a) (b :: t') := by
        simp [applyOps, List.foldl_cons]
      rw [hstep, List.getLast?_cons_cons]
      exact ih (applyOp s a) (List.cons_ne_nil b t')
        (fun o ho => honly o (List.mem_cons_of_mem a ho))

/-- Witness for C8 on a concrete call sequence `disable(); enable()` starting
from a freshly constructed observer. -/
theorem enable_disable_last_call_wins_witness :
    ((applyOps ObserverState.construct [ObserverOp.disable, ObserverOp.enable]).isEnabled = true
        ↔ [ObserverOp.disable, ObserverOp.enable].getLast? = some ObserverOp.enable) ∧
    (applyOps ObserverState.construct
        [ObserverOp.disable, ObserverOp.enable]).listeners = ObserverState.construct.listeners ∧
    ObserverState.construct.isEnabled = false :=
  enable_disable_last_call_wins ObserverState.construct [ObserverOp.disable, ObserverOp.enable]
    (by decide) (by decide)

/-! ## C5 and C9: the event-target filter -/

/-- C5: `checkShouldIgnoreEventFromTarget` implements exactly the spec's
policy — a text node is resolved to its parent first, a non-element resolved
target yields false, and an element target is ignored iff it or an ancestor
carries the ignore-events attribute; in particular a text node under an
attribute-carrying parent element yields true and an element with no
attribute-carrying self-or-ancestor yields false. -/
theorem checkShouldIgnore_policy :
    (∀ t : Option DomNode, checkShouldIgnoreEventFromTarget t = specIgnorePolicy t) ∧
    (∀ p : Option DomNode,
      checkShouldIgnoreEventFromTarget
        (some (DomNode.text (some (DomNode.element true p)))) = true) ∧
    (∀ (ig : Bool) (p : Option DomNode),
      (DomNode.element ig p).selfOrAncestorHasIgnoreAttr = false →
      checkShouldIgnoreEventFromTarget (some (DomNode.element ig p)) = false) := by
  refine ⟨?_, ?_, ?_⟩
  · intro t
    match t with
    | none => rfl
    | some (.element ig p) => rfl
    | some .document => rfl
    | some (.text none) => rfl
    | some (.text (some q)) =>
      cases q <;> rfl
  · intro p
    cases p <;> simp [checkShouldIgnoreEventFromTarget, DomNode.nodeType, DomNode.parentNode,
      DomNode.selfOrAncestorHasIgnoreAttr]
  · intro ig p h
    simpa [checkShouldIgnoreEventFromTarget, DomNode.nodeType] using h

/-- Witness for C5: a marker-free detached element is not ignored. -/
theorem checkShouldIgnore_policy_witness :
    checkShouldIgnoreEventFromTarget (some (DomNode.element false none)) = false :=
  checkShouldIgnore_policy.2.2 false none rfl

/-- C9: `checkShouldIgnoreEventFromTarget` is total; on a null/undefined
target it returns false, and on a text node whose parent is null it returns
false, in both cases without faulting. -/
theorem checkShouldIgnore_null_safe :
    checkShouldIgnoreEventFromTarget none = false ∧
    checkShouldIgnoreEventFromTarget (some (DomNode.text none)) = false :=
  ⟨rfl, rfl⟩

end CKE


